import Mathlib

/-!
Shallow embedding of the audio-feature inference subsystem of
spotify-mcp-enhanced-music-overload, and proofs about it.

Embedded components:
* `src/src/features/models.py`   — `AudioFeatures` record.
* `src/src/features/cache.py`    — `FeatureCache.get` / `FeatureCache.set`
  over an explicit association-list store, with integer timestamps (days).
* `src/src/features/service.py`  — `AudioFeaturesService.get_features`
  waterfall, with source stages given as outcome parameters (a stage either
  returns an optional feature set or raises) and explicit call counters.
* `src/src/features/clients/musicbrainz.py` — the tenacity retry wrapper
  around `lookup_mbid_by_isrc`, and `fuzzy_search_mbid`'s candidate
  selection via `_find_best_duration_match`.
* `src/src/analysis/audio_analyzer.py` — `analyze_preview` cache/version
  orchestration and the key/mode step of `_extract_features`.
* `src/src/features/clients/getsongbpm.py` — `_map_to_audio_features`,
  `_parse_key`, `_parse_time_signature`, with Python truthiness made
  explicit.

Floats are modelled as rationals, datetimes as integers (days), and
track/source ids as strings.
-/

/-- Canonical audio features record, after `AudioFeatures` in
`src/src/features/models.py`.  Every descriptor field is optional;
`retrieved_at` is a timestamp (modelled in days). -/
structure AudioFeatures where
  acousticness : Option ℚ := none
  danceability : Option ℚ := none
  energy : Option ℚ := none
  instrumentalness : Option ℚ := none
  liveness : Option ℚ := none
  speechiness : Option ℚ := none
  valence : Option ℚ := none
  key : Option ℤ := none
  mode : Option ℤ := none
  tempo : Option ℚ := none
  time_signature : Option ℤ := none
  loudness : Option ℚ := none
  source : Option String := none
  source_track_id : Option String := none
  retrieved_at : ℤ := 0
deriving DecidableEq, Repr

/-- A record persisted in the feature cache directory: either a normal
features record (whose own `retrieved_at` is the stored timestamp) or a
negative marker `\x7b"_not_found": true, "retrieved_at": ...\x7d`
(`src/src/features/cache.py`, `FeatureCache.set`). -/
inductive CacheEntry where
  | features (f : AudioFeatures)
  | negative (retrievedAt : ℤ)
deriving DecidableEq, Repr

/-- The `retrieved_at` timestamp read back from a cache file
(`data["retrieved_at"]` in `FeatureCache.get`). -/
def CacheEntry.retrievedAt : CacheEntry → ℤ
  | .features f => f.retrieved_at
  | .negative t => t

/-- The cache directory: one JSON file per track id, modelled as an
association list. -/
abbrev Store := List (String × CacheEntry)

/-- File-existence + read for a track id. -/
def Store.find : Store → String → Option CacheEntry
  | [], _ => none
  | (k, e) :: rest, id => if k = id then some e else Store.find rest id

/-- `os.unlink` of a track's cache file. -/
def Store.erase : Store → String → Store
  | [], _ => []
  | (k, e) :: rest, id =>
    if k = id then Store.erase rest id else (k, e) :: Store.erase rest id

/-- Write (create or overwrite) a track's cache file. -/
def Store.insert (s : Store) (id : String) (e : CacheEntry) : Store :=
  (id, e) :: Store.erase s id

/-- `FeatureCache.get` (`src/src/features/cache.py`, lines 38-81): missing
file reads as absent; an entry whose age exceeds the TTL is deleted and
reads as absent; a valid negative marker reads as absent (the store is
unchanged); a valid features entry is returned.  Returns the result paired
with the store after the call. -/
def FeatureCache.get (store : Store) (now ttl : ℤ) (id : String) :
    Option AudioFeatures × Store :=
  match Store.find store id with
  | none => (none, store)
  | some e =>
    if now - e.retrievedAt > ttl then
      (none, Store.erase store id)
    else
      match e with
      | .negative _ => (none, store)
      | .features f => (some f, store)

/-- `FeatureCache.set` (`src/src/features/cache.py`, lines 83-113):
`None` writes a negative marker timestamped now; a features record is
written as-is. -/
def FeatureCache.set (store : Store) (now : ℤ) (id : String)
    (features : Option AudioFeatures) : Store :=
  match features with
  | none => Store.insert store id (.negative now)
  | some f => Store.insert store id (.features f)

/-- Outcome of one source stage of the waterfall as observed by
`get_features`: the stage either returns normally (possibly with no
features) or raises an exception. -/
inductive SourceOutcome where
  | ok (features : Option AudioFeatures)
  | exn
deriving DecidableEq, Repr

/-- Result of one `get_features` call: the returned value, the store after
the call, and how many times each external stage was invoked. -/
structure GetFeaturesRun where
  result : Option AudioFeatures
  store : Store
  sourceACalls : ℕ
  chainCalls : ℕ
deriving DecidableEq, Repr

/-- `AudioFeaturesService.get_features` (`src/src/features/service.py`,
lines 50-92).  `gsbpm = none` models a service constructed without a
GetSongBPM client (`self.getsongbpm` falsy); otherwise `gsbpm` carries the
outcome of the GetSongBPM fetch.  `chain` is the outcome of the
MusicBrainz + AcousticBrainz chain (`_fetch_from_acousticbrainz`).  The
`try/except` around each stage catches every exception and falls through
to the next step. -/
def getFeatures (store : Store) (now ttl : ℤ) (trackId : String)
    (gsbpm : Option SourceOutcome) (chain : SourceOutcome) : GetFeaturesRun :=
  let c := FeatureCache.get store now ttl trackId
  match c.1 with
  | some f => ⟨some f, c.2, 0, 0⟩
  | none =>
    let afterA : Option AudioFeatures × ℕ :=
      match gsbpm with
      | none => (none, 0)
      | some (.ok f) => (f, 1)
      | some .exn => (none, 1)
    match afterA.1 with
    | some f => ⟨some f, FeatureCache.set c.2 now trackId (some f), afterA.2, 0⟩
    | none =>
      let afterChain : Option AudioFeatures :=
        match chain with
        | .ok f => f
        | .exn => none
      match afterChain with
      | some f => ⟨some f, FeatureCache.set c.2 now trackId (some f), afterA.2, 1⟩
      | none => ⟨none, FeatureCache.set c.2 now trackId none, afterA.2, 1⟩

/-- A recording candidate from a MusicBrainz search response: its MBID and
its optional `length` in milliseconds
(`src/src/features/clients/musicbrainz.py`). -/
structure Recording where
  id : String
  length : Option ℤ
deriving DecidableEq, Repr

/-- The loop of `MusicBrainzClient._find_best_duration_match`
(`src/src/features/clients/musicbrainz.py`, lines 178-192).  `acc` holds
the best candidate so far together with its duration difference;
`acc = none` models `best_match = None, min_diff = inf`.  A missing or
zero `length` is falsy (`if not mb_duration: continue`) and skipped; a
candidate replaces the best when its difference is strictly smaller and
within tolerance. -/
def findBestAux (target tol : ℤ) :
    List Recording → Option (Recording × ℤ) → Option (Recording × ℤ)
  | [], acc => acc
  | r :: rest, acc =>
    match r.length with
    | none => findBestAux target tol rest acc
    | some l =>
      if l = 0 then findBestAux target tol rest acc
      else
        let diff := |l - target|
        match acc with
        | none =>
          if diff ≤ tol then findBestAux target tol rest (some (r, diff))
          else findBestAux target tol rest none
        | some (b, m) =>
          if diff < m ∧ diff ≤ tol then findBestAux target tol rest (some (r, diff))
          else findBestAux target tol rest (some (b, m))

/-- `MusicBrainzClient._find_best_duration_match` (default tolerance
5000 ms at the call site in `fuzzy_search_mbid`). -/
def findBestDurationMatch (recs : List Recording) (target tol : ℤ) :
    Option Recording :=
  (findBestAux target tol recs none).map Prod.fst

/-- The candidate-selection step of `MusicBrainzClient.fuzzy_search_mbid`
(`src/src/features/clients/musicbrainz.py`, lines 134-147): empty
candidate list gives no MBID; with a truthy duration the best duration
match wins, falling back to the first candidate's id when no candidate is
within tolerance; without a duration the first candidate's id is
returned. -/
def fuzzySearchSelect (recs : List Recording) (durationMs : Option ℤ) :
    Option String :=
  match recs with
  | [] => none
  | r0 :: _ =>
    match durationMs with
    | some d =>
      if d ≠ 0 then
        match findBestDurationMatch recs d 5000 with
        | some r => some r.id
        | none => some r0.id
      else some r0.id
    | none => some r0.id

/-- Whether a candidate is a within-tolerance duration match: it has a
truthy `length` whose difference from the target is at most `tol`. -/
def withinTol (r : Recording) (d tol : ℤ) : Bool :=
  match r.length with
  | none => false
  | some l => decide (l ≠ 0) && decide (|l - d| ≤ tol)

/-- Duration difference of a candidate from the target (0 when the
candidate has no length; only used under `withinTol`). -/
def candDiff (r : Recording) (d : ℤ) : ℤ :=
  match r.length with
  | none => 0
  | some l => |l - d|

/-- What one HTTP attempt inside `lookup_mbid_by_isrc` can come to, as
seen at the top of the `try` body: a 2xx response (carrying an optional
MBID), a 404 status, a non-2xx status raised by `raise_for_status`, a
timeout, or any other exception. -/
inductive CallOutcome where
  | ok (mbid : Option String)
  | status404
  | httpStatus (code : ℕ)
  | timeout
  | otherExc
deriving DecidableEq, Repr

/-- The exceptions that can escape one attempt of the body. -/
inductive MBError where
  | httpStatus (code : ℕ)
  | timeout
deriving DecidableEq, Repr

/-- One attempt of the body of `MusicBrainzClient.lookup_mbid_by_isrc`
(`src/src/features/clients/musicbrainz.py`, lines 33-79): a 404 status is
returned as absent before `raise_for_status`; the `except` clauses turn a
404 `HTTPStatusError` into absent, re-raise other status errors and
timeouts, and turn any other exception into absent. -/
def lookupAttempt : CallOutcome → Except MBError (Option String)
  | .ok m => .ok m
  | .status404 => .ok none
  | .httpStatus c => if c = 404 then .ok none else .error (.httpStatus c)
  | .timeout => .error .timeout
  | .otherExc => .ok none

/-- `retry_if_exception_type((httpx.HTTPError, httpx.TimeoutException))`:
both a status error and a timeout are transport-level `httpx` errors and
are retryable. -/
def isRetryable : MBError → Bool
  | .httpStatus _ => true
  | .timeout => true

/-- The tenacity loop `stop_after_attempt(3), reraise=True` around the
body: `i` is the zero-based index of the current attempt, the last
argument the number of further attempts allowed.  A normal return ends
the loop; a retryable exception triggers the next attempt until attempts
are exhausted, at which point the exception is re-raised. -/
def runWithRetry (outcomes : ℕ → CallOutcome) (i : ℕ) :
    ℕ → ℕ × Except MBError (Option String)
  | 0 => (i, lookupAttempt (outcomes i))
  | n + 1 =>
    match lookupAttempt (outcomes i) with
    | .ok v => (i, .ok v)
    | .error e =>
      if isRetryable e then runWithRetry outcomes (i + 1) n
      else (i, .error e)

/-- `lookup_mbid_by_isrc` under its `@retry` decorator: up to 3 attempts,
given the outcome each attempt would observe.  Returns the zero-based
index of the last attempt performed and its result. -/
def lookupMbidByIsrc (outcomes : ℕ → CallOutcome) :
    ℕ × Except MBError (Option String) :=
  runWithRetry outcomes 0 2

/-- `np.argmax` over a list: loop carrying the index of the first maximum
seen so far (a later element replaces the best only when strictly
larger). -/
def argmaxAux : List ℚ → ℕ → ℕ → ℚ → ℕ
  | [], _, best, _ => best
  | x :: rest, i, best, bv =>
    if x > bv then argmaxAux rest (i + 1) i x
    else argmaxAux rest (i + 1) best bv

/-- `np.argmax` (0 on an empty list, as a harmless convention; the
analyzer always passes a 12-bin histogram). -/
def argmaxIdx : List ℚ → ℕ
  | [] => 0
  | x :: rest => argmaxAux rest 1 0 x

/-- The key/mode step of `AudioFeatureAnalyzer._extract_features`
(`src/src/analysis/audio_analyzer.py`, lines 184-198): key is the argmax
bin of the accumulated chroma energy; mode is 1 exactly when the energy
at bin `(key+4) % 12` strictly exceeds the energy at bin `(key+3) % 12`,
else 0. -/
def extractKeyMode (chromaSum : List ℚ) : ℕ × ℕ :=
  let key := argmaxIdx chromaSum
  let majorThirdIdx := (key + 4) % 12
  let minorThirdIdx := (key + 3) % 12
  let majorStrength := chromaSum.getD majorThirdIdx 0
  let minorStrength := chromaSum.getD minorThirdIdx 0
  (key, if majorStrength > minorStrength then 1 else 0)

/-- Payload produced by `_extract_features` (tempo, key, mode, energy,
danceability, valence). -/
structure AnalysisPayload where
  tempo : ℚ := 0
  key : ℕ := 0
  mode : ℕ := 0
  energy : ℚ := 0
  danceability : ℚ := 0
  valence : ℚ := 0
deriving DecidableEq, Repr

/-- A record in the analysis cache: the features dict together with the
metadata `analyze_preview` adds before writing
(`src/src/analysis/audio_analyzer.py`, lines 133-136). -/
structure AnalysisEntry where
  payload : AnalysisPayload
  analyzerVersion : String
  trackId : String
  previewUrl : String
deriving DecidableEq, Repr

/-- `AudioFeatureAnalyzer.ANALYZER_VERSION`. -/
def ANALYZER_VERSION : String := "1.0.0"

/-- Whether the preview download (`requests.get` + `raise_for_status`)
succeeds. -/
inductive DownloadOutcome where
  | ok
  | failure
deriving DecidableEq, Repr

/-- Whether `_extract_features` on the downloaded bytes succeeds, and
with which payload. -/
inductive ExtractOutcome where
  | ok (p : AnalysisPayload)
  | failure
deriving DecidableEq, Repr

/-- How one `analyze_preview` call ends: a normal return (`None` for an
empty preview URL, otherwise a features dict), a raised
`PreviewDownloadError`, or a raised `AudioProcessingError`. -/
inductive AnalyzeResult where
  | value (d : Option AnalysisEntry)
  | downloadError
  | processingError
deriving DecidableEq, Repr

/-- Result of one `analyze_preview` call: its outcome, the analysis-cache
entry for the track after the call, and whether `_extract_features` was
invoked. -/
structure AnalyzeRun where
  result : AnalyzeResult
  cacheEntry : Option AnalysisEntry
  analyzerInvoked : Bool
deriving DecidableEq, Repr

/-- The fresh path of `analyze_preview`
(`src/src/analysis/audio_analyzer.py`, lines 109-158): download (failure
raises), extract (failure raises, the cache keeps its old entry), and on
success tag the payload with the current version and write-through. -/
def analyzeFresh (previewUrl trackId : String) (cached : Option AnalysisEntry)
    (download : DownloadOutcome) (extract : ExtractOutcome) : AnalyzeRun :=
  match download with
  | .failure => ⟨.downloadError, cached, false⟩
  | .ok =>
    match extract with
    | .failure => ⟨.processingError, cached, true⟩
    | .ok p =>
      let fresh : AnalysisEntry := ⟨p, ANALYZER_VERSION, trackId, previewUrl⟩
      ⟨.value (some fresh), some fresh, true⟩

/-- `AudioFeatureAnalyzer.analyze_preview`
(`src/src/analysis/audio_analyzer.py`, lines 69-158): empty preview URL
returns `None` with no work; a cached entry is returned only when its
version tag matches `ANALYZER_VERSION`; any other state (no entry, or a
version mismatch) takes the fresh download/analyze path. -/
def analyzePreview (previewUrl trackId : String) (cached : Option AnalysisEntry)
    (download : DownloadOutcome) (extract : ExtractOutcome) : AnalyzeRun :=
  if previewUrl = "" then ⟨.value none, cached, false⟩
  else
    match cached with
    | some e =>
      if e.analyzerVersion = ANALYZER_VERSION then ⟨.value (some e), cached, false⟩
      else analyzeFresh previewUrl trackId cached download extract
    | none => analyzeFresh previewUrl trackId cached download extract

/-- The fields of a GetSongBPM search-result object used by
`GetSongBPMClient._map_to_audio_features`
(`src/src/features/clients/getsongbpm.py`).  Numeric vendor fields are
rationals; an absent field is `none`. -/
structure SongData where
  tempo : Option ℚ := none
  key_of : Option String := none
  time_sig : Option String := none
  danceability : Option ℚ := none
  acousticness : Option ℚ := none
  id : Option String := none
deriving DecidableEq, Repr

/-- Python truthiness of `song_data.get(field)` for a numeric field: an
absent field and a present literal 0 are both falsy. -/
def pyTruthy : Option ℚ → Bool
  | none => false
  | some q => decide (q ≠ 0)

/-- The key table of `GetSongBPMClient._parse_key`. -/
def keyMap : List (String × ℤ) :=
  [("C", 0), ("C#", 1), ("Db", 1), ("D", 2), ("D#", 3), ("Eb", 3),
   ("E", 4), ("F", 5), ("F#", 6), ("Gb", 6), ("G", 7), ("G#", 8),
   ("Ab", 8), ("A", 9), ("A#", 10), ("Bb", 10), ("B", 11)]

/-- `GetSongBPMClient._parse_key` (lines 124-150): empty string gives no
key; otherwise every "m" is removed, the remainder trimmed and looked up
in the key table. -/
def parseKey (keyStr : String) : Option ℤ :=
  if keyStr = "" then none
  else List.lookup ((keyStr.replace "m" "").trim) keyMap

/-- `GetSongBPMClient._parse_time_signature` (lines 152-169): empty
string gives none; otherwise the part before the first "/" parsed as an
integer, with a parse failure giving none. -/
def parseTimeSignature (timeSigStr : String) : Option ℤ :=
  if timeSigStr = "" then none
  else
    match (timeSigStr.splitOn "/").head? with
    | none => none
    | some numerator => numerator.toInt?

/-- `GetSongBPMClient._map_to_audio_features`
(`src/src/features/clients/getsongbpm.py`, lines 88-122): each numeric
vendor field is taken only when truthy (danceability and acousticness
additionally divided by 100); `key_of` defaults to the empty string; mode
is 0 when the key notation contains "m" and 1 otherwise (the Python
substring test for the one-character needle is character membership);
`now` stands for the pydantic `retrieved_at` default timestamp. -/
def mapToAudioFeatures (sd : SongData) (now : ℤ) : AudioFeatures :=
  let keyStr := sd.key_of.getD ""
  { tempo := if pyTruthy sd.tempo then sd.tempo else none
    key := parseKey keyStr
    mode := some (if keyStr.data.contains 'm' then 0 else 1)
    danceability :=
      if pyTruthy sd.danceability then sd.danceability.map (fun q => q / 100)
      else none
    acousticness :=
      if pyTruthy sd.acousticness then sd.acousticness.map (fun q => q / 100)
      else none
    time_signature := parseTimeSignature (sd.time_sig.getD "")
    source := some "getsongbpm"
    source_track_id := sd.id
    retrieved_at := now }

lemma Store.find_erase_self (s : Store) (id : String) :
    Store.find (Store.erase s id) id = none := by
  induction s with
  | nil => rfl
  | cons hd tl ih =>
    obtain ⟨k, e⟩ := hd
    by_cases hk : k = id
    · simpa [Store.erase, hk] using ih
    · simpa [Store.erase, Store.find, hk] using ih

lemma Store.find_insert_self (s : Store) (id : String) (e : CacheEntry) :
    Store.find (Store.insert s id e) id = some e := by
  simp [Store.insert, Store.find]

/-- Claim C1 (code evaluated at the failing input): with a fresh negative
cache entry for track "t" (age 0 days, TTL 30) and a GetSongBPM client
configured, `get_features` still invokes the GetSongBPM source once and
the MusicBrainz/AcousticBrainz chain once, because `FeatureCache.get`
returns absent for a valid negative entry and the service cannot tell a
negative hit from a plain miss.  The claim's required zero external calls
does not hold. -/
theorem C1_fresh_negative_entry_still_calls_sources :
    (getFeatures [("t", CacheEntry.negative 0)] 0 30 "t"
        (some (.ok none)) (.ok none)).sourceACalls = 1
    ∧ (getFeatures [("t", CacheEntry.negative 0)] 0 30 "t"
        (some (.ok none)) (.ok none)).chainCalls = 1
    ∧ (getFeatures [("t", CacheEntry.negative 0)] 0 30 "t"
        (some (.ok none)) (.ok none)).result = none := by
  refine ⟨?_, ?_, ?_⟩ <;> rfl

/-- Claim C6: an exception inside a source stage never propagates out of
`get_features`: a stage that raises produces exactly the same run
(result, final store, calls to the remaining stages) as a stage that
returns no result, so the waterfall proceeds to the next stage or the
negative-cache outcome. -/
theorem C6_source_exceptions_swallowed (store : Store) (now ttl : ℤ)
    (id : String) (g : Option SourceOutcome) (chain : SourceOutcome) :
    getFeatures store now ttl id (some .exn) chain
      = getFeatures store now ttl id (some (.ok none)) chain
    ∧ getFeatures store now ttl id g .exn
      = getFeatures store now ttl id g (.ok none) := by
  constructor
  · unfold getFeatures
    cases h : (FeatureCache.get store now ttl id).1 <;> simp [h]
  · unfold getFeatures
    cases h : (FeatureCache.get store now ttl id).1 <;> simp [h]

/-- Claim C7: a feature-cache entry whose `retrieved_at` is older than the
TTL is deleted by `get` and read as absent; afterwards no entry exists for
the track, and a waterfall call on the stale store reaches the external
sources (it is not served from cache). -/
theorem C7_expired_entry_deleted_and_absent (store : Store) (now ttl : ℤ)
    (id : String) (e : CacheEntry)
    (hfind : Store.find store id = some e)
    (hexp : now - e.retrievedAt > ttl) :
    FeatureCache.get store now ttl id = (none, Store.erase store id)
    ∧ Store.find (FeatureCache.get store now ttl id).2 id = none
    ∧ ∀ g chain,
        (getFeatures store now ttl id (some g) chain).sourceACalls = 1 := by
  have hget : FeatureCache.get store now ttl id = (none, Store.erase store id) := by
    simp [FeatureCache.get, hfind, hexp]
  refine ⟨hget, ?_, ?_⟩
  · rw [hget]
    exact Store.find_erase_self store id
  · intro g chain
    unfold getFeatures
    rw [hget]
    cases g with
    | ok f =>
      cases f with
      | none =>
        cases chain with
        | ok f2 => cases f2 <;> rfl
        | exn => rfl
      | some f1 => rfl
    | exn =>
      cases chain with
      | ok f2 => cases f2 <;> rfl
      | exn => rfl

/-- Claim C7 witness: an entry timestamped day 0 read at day 31 with
TTL 30 is deleted and read as absent, and the next waterfall call invokes
the first source. -/
theorem C7_expired_entry_witness :
    FeatureCache.get [("t", CacheEntry.negative 0)] 31 30 "t" = (none, [])
    ∧ (getFeatures [("t", CacheEntry.negative 0)] 31 30 "t"
        (some (.ok none)) (.ok none)).sourceACalls = 1 :=
  ⟨(C7_expired_entry_deleted_and_absent [("t", CacheEntry.negative 0)] 31 30
      "t" (CacheEntry.negative 0) (by decide) (by decide)).1,
   (C7_expired_entry_deleted_and_absent [("t", CacheEntry.negative 0)] 31 30
      "t" (CacheEntry.negative 0) (by decide) (by decide)).2.2 _ _⟩

/-- Claim C8: on a cache miss where neither source yields features (each
returns no result, raises, or — for GetSongBPM — is not configured),
`get_features` returns absent and writes a negative marker timestamped
now, so afterwards a first-class negative entry exists for the track. -/
theorem C8_no_result_writes_negative_marker (store : Store) (now ttl : ℤ)
    (id : String) (gsbpm : Option SourceOutcome) (chain : SourceOutcome)
    (hmiss : Store.find store id = none)
    (hA : gsbpm = none ∨ gsbpm = some (.ok none) ∨ gsbpm = some .exn)
    (hB : chain = .ok none ∨ chain = .exn) :
    (getFeatures store now ttl id gsbpm chain).result = none
    ∧ Store.find (getFeatures store now ttl id gsbpm chain).store id
        = some (.negative now) := by
  have hget : FeatureCache.get store now ttl id = (none, store) := by
    simp [FeatureCache.get, hmiss]
  rcases hA with h | h | h <;> rcases hB with h2 | h2 <;> subst h <;> subst h2 <;>
    simp [getFeatures, hget, FeatureCache.set, Store.find_insert_self]

/-- Claim C8 witness: a track absent from the cache whose GetSongBPM fetch
and MusicBrainz/AcousticBrainz chain both return nothing ends with an
absent result and a negative entry timestamped day 5. -/
theorem C8_no_result_witness :
    (getFeatures [] 5 30 "t" (some (.ok none)) (.ok none)).result = none
    ∧ Store.find (getFeatures [] 5 30 "t" (some (.ok none)) (.ok none)).store "t"
        = some (.negative 5) :=
  C8_no_result_writes_negative_marker [] 5 30 "t" (some (.ok none)) (.ok none)
    rfl (Or.inr (Or.inl rfl)) (Or.inl rfl)

lemma runWithRetry_fst_le (outcomes : ℕ → CallOutcome) :
    ∀ (n i : ℕ), (runWithRetry outcomes i n).1 ≤ i + n := by
  intro n
  induction n with
  | zero => intro i; simp [runWithRetry]
  | succ n ih =>
    intro i
    unfold runWithRetry
    cases h : lookupAttempt (outcomes i) with
    | ok v => simp
    | error e =>
      by_cases hr : isRetryable e
      · simp only [hr, if_true]
        calc (runWithRetry outcomes (i + 1) n).1 ≤ (i + 1) + n := ih (i + 1)
          _ = i + (n + 1) := by omega
      · simp [hr]

lemma runWithRetry_prefix_retryable (outcomes : ℕ → CallOutcome) :
    ∀ (n i j : ℕ), i ≤ j → j < (runWithRetry outcomes i n).1 →
      ∃ e, lookupAttempt (outcomes j) = .error e ∧ isRetryable e = true := by
  intro n
  induction n with
  | zero =>
    intro i j hij hlt
    simp only [runWithRetry] at hlt
    omega
  | succ n ih =>
    intro i j hij hlt
    unfold runWithRetry at hlt
    cases h : lookupAttempt (outcomes i) with
    | ok v => rw [h] at hlt; simp at hlt; omega
    | error e =>
      rw [h] at hlt
      by_cases hr : isRetryable e
      · simp only [hr, if_true] at hlt
        rcases eq_or_lt_of_le hij with rfl | hij'
        · exact ⟨e, h, hr⟩
        · exact ih (i + 1) j hij' hlt
      · simp [hr] at hlt; omega

/-- Claim C4: the retried `lookup_mbid_by_isrc` makes at most 3 attempts;
every attempt that was followed by a retry had raised a retryable
transport error (an `httpx` status error or timeout); and a 404
"not found" response ends the call on the very first attempt with an
absent result — it is never retried. -/
theorem C4_retry_at_most_three_404_terminal (outcomes : ℕ → CallOutcome) :
    (lookupMbidByIsrc outcomes).1 + 1 ≤ 3
    ∧ (∀ j, j < (lookupMbidByIsrc outcomes).1 →
        ∃ e, lookupAttempt (outcomes j) = .error e ∧ isRetryable e = true)
    ∧ (outcomes 0 = .status404 → lookupMbidByIsrc outcomes = (0, .ok none)) := by
  refine ⟨?_, ?_, ?_⟩
  · have := runWithRetry_fst_le outcomes 2 0
    simpa [lookupMbidByIsrc] using this
  · intro j hj
    exact runWithRetry_prefix_retryable outcomes 2 0 j (Nat.zero_le j) hj
  · intro h0
    simp [lookupMbidByIsrc, runWithRetry, h0, lookupAttempt]

/-- Claim C4 witness: a call whose first attempt sees a 404 finishes on
attempt 1 (index 0) with an absent result. -/
theorem C4_retry_witness :
    lookupMbidByIsrc (fun _ => CallOutcome.status404) = (0, .ok none) :=
  (C4_retry_at_most_three_404_terminal (fun _ => CallOutcome.status404)).2.2 rfl

lemma findBestAux_eq_none (target tol : ℤ) :
    ∀ (recs : List Recording) (acc : Option (Recording × ℤ)),
      findBestAux target tol recs acc = none →
      acc = none ∧ ∀ r ∈ recs, withinTol r target tol = false := by
  intro recs
  induction recs with
  | nil =>
    intro acc h
    refine ⟨by simpa [findBestAux] using h, by simp⟩
  | cons r rest ih =>
    intro acc h
    cases hL : r.length with
    | none =>
      simp only [findBestAux, hL] at h
      obtain ⟨hacc, hall⟩ := ih acc h
      refine ⟨hacc, ?_⟩
      intro r' hr'
      rcases List.mem_cons.mp hr' with rfl | hmem
      · simp [withinTol, hL]
      · exact hall r' hmem
    | some l =>
      by_cases hl0 : l = 0
      · simp only [findBestAux, hL, hl0, if_true] at h
        obtain ⟨hacc, hall⟩ := ih acc h
        refine ⟨hacc, ?_⟩
        intro r' hr'
        rcases List.mem_cons.mp hr' with rfl | hmem
        · simp [withinTol, hL, hl0]
        · exact hall r' hmem
      · cases acc with
        | none =>
          by_cases hd : |l - target| ≤ tol
          · simp only [findBestAux, hL, hl0, hd, if_false, if_true] at h
            obtain ⟨hacc, _⟩ := ih _ h
            exact absurd hacc (by simp)
          · simp only [findBestAux, hL, hl0, hd, if_false] at h
            obtain ⟨_, hall⟩ := ih _ h
            refine ⟨rfl, ?_⟩
            intro r' hr'
            rcases List.mem_cons.mp hr' with rfl | hmem
            · simp [withinTol, hL, hl0, hd]
            · exact hall r' hmem
        | some bm =>
          obtain ⟨b, m⟩ := bm
          by_cases hc : |l - target| < m ∧ |l - target| ≤ tol
          · simp only [findBestAux, hL, hl0, hc, if_true, if_false] at h
            obtain ⟨hacc, _⟩ := ih _ h
            exact absurd hacc (by simp)
          · simp only [findBestAux, hL, hl0, hc, if_false] at h
            obtain ⟨hacc, _⟩ := ih _ h
            exact absurd hacc (by simp)

lemma findBestAux_none_of_all_far (target tol : ℤ) :
    ∀ (recs : List Recording),
      (∀ r ∈ recs, withinTol r target tol = false) →
      findBestAux target tol recs none = none := by
  intro recs
  induction recs with
  | nil => intro _; rfl
  | cons r rest ih =>
    intro hall
    cases hL : r.length with
    | none =>
      simp only [findBestAux, hL]
      exact ih fun r' hr' => hall r' (List.mem_cons_of_mem r hr')
    | some l =>
      by_cases hl0 : l = 0
      · simp only [findBestAux, hL, hl0, if_true]
        exact ih fun r' hr' => hall r' (List.mem_cons_of_mem r hr')
      · have hfar : ¬ (|l - target| ≤ tol) := by
          have := hall r (List.mem_cons_self r rest)
          simp [withinTol, hL, hl0] at this
          exact not_le.mpr this
        simp only [findBestAux, hL, hl0, hfar, if_false]
        exact ih fun r' hr' => hall r' (List.mem_cons_of_mem r hr')

lemma findBestAux_spec (target tol : ℤ) :
    ∀ (recs : List Recording) (acc : Option (Recording × ℤ)) (r : Recording)
      (m : ℤ), findBestAux target tol recs acc = some (r, m) →
      (acc = some (r, m) ∨
        (r ∈ recs ∧ ∃ l, r.length = some l ∧ l ≠ 0 ∧ m = |l - target| ∧ m ≤ tol))
      ∧ (∀ b m0, acc = some (b, m0) → m ≤ m0)
      ∧ (∀ r' ∈ recs, withinTol r' target tol = true → m ≤ candDiff r' target) := by
  intro recs
  induction recs with
  | nil =>
    intro acc r m h
    simp only [findBestAux] at h
    refine ⟨Or.inl h, ?_, by simp⟩
    intro b m0 hacc
    rw [h] at hacc
    injection hacc with h2
    injection h2 with _ h3
    omega
  | cons r0 rest ih =>
    intro acc r m h
    cases hL : r0.length with
    | none =>
      simp only [findBestAux, hL] at h
      obtain ⟨hleft, hmid, hlist⟩ := ih acc r m h
      refine ⟨?_, hmid, ?_⟩
      · rcases hleft with hacc | ⟨hmem, hex⟩
        · exact Or.inl hacc
        · exact Or.inr ⟨List.mem_cons_of_mem r0 hmem, hex⟩
      · intro r' hr' hw
        rcases List.mem_cons.mp hr' with rfl | hmem
        · simp [withinTol, hL] at hw
        · exact hlist r' hmem hw
    | some l =>
      by_cases hl0 : l = 0
      · simp only [findBestAux, hL, hl0, if_true] at h
        obtain ⟨hleft, hmid, hlist⟩ := ih acc r m h
        refine ⟨?_, hmid, ?_⟩
        · rcases hleft with hacc | ⟨hmem, hex⟩
          · exact Or.inl hacc
          · exact Or.inr ⟨List.mem_cons_of_mem r0 hmem, hex⟩
        · intro r' hr' hw
          rcases List.mem_cons.mp hr' with rfl | hmem
          · simp [withinTol, hL, hl0] at hw
          · exact hlist r' hmem hw
      · cases acc with
        | none =>
          by_cases hd : |l - target| ≤ tol
          · simp only [findBestAux, hL, hl0, hd, if_false, if_true] at h
            obtain ⟨hleft, hmid, hlist⟩ := ih _ r m h
            have hm_le : m ≤ |l - target| := hmid r0 (|l - target|) rfl
            refine ⟨?_, ?_, ?_⟩
            · rcases hleft with hacc | ⟨hmem, hex⟩
              · injection hacc with h2
                injection h2 with hr hm
                subst hr; subst hm
                exact Or.inr ⟨List.mem_cons_self r0 rest, l, hL, hl0, rfl, hd⟩
              · exact Or.inr ⟨List.mem_cons_of_mem r0 hmem, hex⟩
            · intro b m0 hacc; cases hacc
            · intro r' hr' hw
              rcases List.mem_cons.mp hr' with rfl | hmem
              · simpa [candDiff, hL] using hm_le
              · exact hlist r' hmem hw
          · simp only [findBestAux, hL, hl0, hd, if_false] at h
            obtain ⟨hleft, hmid, hlist⟩ := ih _ r m h
            refine ⟨?_, ?_, ?_⟩
            · rcases hleft with hacc | ⟨hmem, hex⟩
              · cases hacc
              · exact Or.inr ⟨List.mem_cons_of_mem r0 hmem, hex⟩
            · intro b m0 hacc; cases hacc
            · intro r' hr' hw
              rcases List.mem_cons.mp hr' with rfl | hmem
              · simp [withinTol, hL, hl0, hd] at hw
              · exact hlist r' hmem hw
        | some bm =>
          obtain ⟨b0, m0⟩ := bm
          by_cases hc : |l - target| < m0 ∧ |l - target| ≤ tol
          · simp only [findBestAux, hL, hl0, hc, if_true, if_false] at h
            obtain ⟨hleft, hmid, hlist⟩ := ih _ r m h
            have hm_le : m ≤ |l - target| := hmid r0 (|l - target|) rfl
            refine ⟨?_, ?_, ?_⟩
            · rcases hleft with hacc | ⟨hmem, hex⟩
              · injection hacc with h2
                injection h2 with hr hm
                subst hr; subst hm
                exact Or.inr ⟨List.mem_cons_self r0 rest, l, hL, hl0, rfl, hc.2⟩
              · exact Or.inr ⟨List.mem_cons_of_mem r0 hmem, hex⟩
            · intro b m0' hacc
              injection hacc with h2
              injection h2 with hb hm0
              subst hb; subst hm0
              exact le_of_lt (lt_of_le_of_lt hm_le hc.1)
            · intro r' hr' hw
              rcases List.mem_cons.mp hr' with rfl | hmem
              · simpa [candDiff, hL] using hm_le
              · exact hlist r' hmem hw
          · simp only [findBestAux, hL, hl0, hc, if_false] at h
            obtain ⟨hleft, hmid, hlist⟩ := ih _ r m h
            refine ⟨?_, ?_, ?_⟩
            · rcases hleft with hacc | ⟨hmem, hex⟩
              · exact Or.inl hacc
              · exact Or.inr ⟨List.mem_cons_of_mem r0 hmem, hex⟩
            · exact hmid
            · intro r' hr' hw
              rcases List.mem_cons.mp hr' with rfl | hmem
              · have hm_le_m0 : m ≤ m0 := hmid b0 m0 rfl
                have hdt : |l - target| ≤ tol := by
                  simp [withinTol, hL, hl0] at hw
                  exact hw
                have hm0_le : m0 ≤ |l - target| := by
                  by_contra hlt
                  exact hc ⟨by omega, hdt⟩
                have : m ≤ |l - target| := le_trans hm_le_m0 hm0_le
                simpa [candDiff, hL] using this
              · exact hlist r' hmem hw

/-- Claim C5: when the fuzzy MBID search has a truthy target duration and
candidates, the chosen candidate is within the 5000 ms tolerance and has
the least duration difference among within-tolerance candidates; when no
candidate is within tolerance, the first candidate's id is returned.  In
particular, with duration deltas [2000, 6000, 4999] ms the 2000 ms
candidate is selected (also when it is not the first in the list). -/
theorem C5_fuzzy_duration_selection (recs : List Recording) (d : ℤ) :
    (∀ (tol : ℤ) (r : Recording), findBestDurationMatch recs d tol = some r →
      r ∈ recs ∧ withinTol r d tol = true ∧
        ∀ r' ∈ recs, withinTol r' d tol = true → candDiff r d ≤ candDiff r' d)
    ∧ (∀ tol : ℤ, (∃ r ∈ recs, withinTol r d tol = true) →
        ∃ r, findBestDurationMatch recs d tol = some r)
    ∧ (∀ (r0 : Recording) (rest : List Recording), recs = r0 :: rest →
        d ≠ 0 → (∀ r ∈ recs, withinTol r d 5000 = false) →
        fuzzySearchSelect recs (some d) = some r0.id)
    ∧ fuzzySearchSelect
        [⟨"r1", some 202000⟩, ⟨"r2", some 206000⟩, ⟨"r3", some 195001⟩]
        (some 200000) = some "r1"
    ∧ fuzzySearchSelect
        [⟨"s1", some 206000⟩, ⟨"s2", some 202000⟩, ⟨"s3", some 195001⟩]
        (some 200000) = some "s2" := by
  refine ⟨?_, ?_, ?_, by decide, by decide⟩
  · intro tol r h
    cases hfb : findBestAux d tol recs none with
    | none => simp [findBestDurationMatch, hfb] at h
    | some rm =>
      obtain ⟨r1, m⟩ := rm
      have hr1 : r1 = r := by
        simpa [findBestDurationMatch, hfb] using h
      subst hr1
      obtain ⟨hleft, _, hlist⟩ := findBestAux_spec d tol recs none r1 m hfb
      rcases hleft with hacc | ⟨hmem, l, hL, hl0, hm, hmtol⟩
      · cases hacc
      · refine ⟨hmem, ?_, ?_⟩
        · simp only [withinTol, hL, Bool.and_eq_true, decide_eq_true_eq]
          exact ⟨hl0, by rw [← hm]; exact hmtol⟩
        · intro r' hr' hw
          have := hlist r' hr' hw
          have hcd : candDiff r1 d = m := by simp [candDiff, hL, hm]
          rw [hcd]
          exact this
  · intro tol hex
    obtain ⟨r, hr, hw⟩ := hex
    cases hfb : findBestAux d tol recs none with
    | none =>
      obtain ⟨_, hall⟩ := findBestAux_eq_none d tol recs none hfb
      rw [hall r hr] at hw
      cases hw
    | some rm =>
      obtain ⟨r1, m⟩ := rm
      exact ⟨r1, by simp [findBestDurationMatch, hfb]⟩
  · intro r0 rest hrecs hd hall
    subst hrecs
    have hnone := findBestAux_none_of_all_far d 5000 (r0 :: rest) hall
    simp [fuzzySearchSelect, hd, findBestDurationMatch, hnone]

/-- Claim C5 witness: with both candidates 10000 ms away from the target
(outside the 5000 ms tolerance), the first candidate's id is returned. -/
theorem C5_fuzzy_duration_witness :
    fuzzySearchSelect [⟨"f1", some 210000⟩, ⟨"f2", some 190000⟩]
      (some 200000) = some "f1" :=
  (C5_fuzzy_duration_selection [⟨"f1", some 210000⟩, ⟨"f2", some 190000⟩]
      200000).2.2.1 ⟨"f1", some 210000⟩ [⟨"f2", some 190000⟩] rfl
    (by decide) (by decide)

/-- Claim C2 counterexample: on a uniform 12-bin chroma histogram the
energies at bins `(key+4) % 12` and `(key+3) % 12` are exactly equal, yet
the analyzer assigns mode 0 (minor), not the major the claim requires for
ties. -/
theorem C2_tie_counterexample :
    (List.replicate 12 (1 : ℚ)).getD
        (((extractKeyMode (List.replicate 12 (1 : ℚ))).1 + 4) % 12) 0
      = (List.replicate 12 (1 : ℚ)).getD
        (((extractKeyMode (List.replicate 12 (1 : ℚ))).1 + 3) % 12) 0
    ∧ (extractKeyMode (List.replicate 12 (1 : ℚ))).2 = 0 := by
  refine ⟨?_, ?_⟩ <;> rfl

/-- Claim C2 as amended: mode is assigned by comparing the accumulated
energy at bin `(key+4) % 12` against bin `(key+3) % 12`, it is major
(mode 1) exactly when the former strictly exceeds the latter, and an
exact tie yields minor (mode 0). -/
theorem C2_mode_strict_major_tie_minor (chromaSum : List ℚ) :
    ((extractKeyMode chromaSum).2 = 1 ↔
      chromaSum.getD (((extractKeyMode chromaSum).1 + 4) % 12) 0 >
        chromaSum.getD (((extractKeyMode chromaSum).1 + 3) % 12) 0)
    ∧ (chromaSum.getD (((extractKeyMode chromaSum).1 + 4) % 12) 0 =
        chromaSum.getD (((extractKeyMode chromaSum).1 + 3) % 12) 0 →
      (extractKeyMode chromaSum).2 = 0) := by
  have h1 : (extractKeyMode chromaSum).1 = argmaxIdx chromaSum := rfl
  have h2 : (extractKeyMode chromaSum).2 =
      if chromaSum.getD ((argmaxIdx chromaSum + 4) % 12) 0 >
          chromaSum.getD ((argmaxIdx chromaSum + 3) % 12) 0 then 1 else 0 := rfl
  rw [h1, h2]
  by_cases h : chromaSum.getD ((argmaxIdx chromaSum + 4) % 12) 0 >
      chromaSum.getD ((argmaxIdx chromaSum + 3) % 12) 0
  · rw [if_pos h]
    refine ⟨⟨fun _ => h, fun _ => rfl⟩, ?_⟩
    intro heq
    rw [heq] at h
    exact absurd h (lt_irrefl _)
  · rw [if_neg h]
    exact ⟨⟨fun h01 => absurd h01 (by decide), fun hgt => absurd hgt h⟩,
      fun _ => rfl⟩

/-- Claim C2 witness: a histogram whose major-third bin strictly
dominates its minor-third bin is assigned mode 1. -/
theorem C2_mode_witness :
    (extractKeyMode [10, 0, 0, 5, 6, 0, 0, 0, 0, 0, 0, 0]).2 = 1 :=
  (C2_mode_strict_major_tie_minor
      [10, 0, 0, 5, 6, 0, 0, 0, 0, 0, 0, 0]).1.mpr (by decide)

/-- Claim C3: an analysis-cache entry whose version tag differs from
`ANALYZER_VERSION` is treated as absent by `analyze_preview`: the stale
value is never returned, the fresh analysis path always runs (the
analyzer is invoked whenever the download succeeds), and on a successful
re-analysis the entry is replaced by one tagged with the current version
before any reuse. -/
theorem C3_stale_version_never_reused (previewUrl trackId : String)
    (e : AnalysisEntry) (download : DownloadOutcome)
    (extract : ExtractOutcome) (hurl : previewUrl ≠ "")
    (hver : e.analyzerVersion ≠ ANALYZER_VERSION) :
    (analyzePreview previewUrl trackId (some e) download extract).result
      ≠ .value (some e)
    ∧ (download = .ok →
        (analyzePreview previewUrl trackId (some e) download
          extract).analyzerInvoked = true)
    ∧ (∀ p, extract = .ok p → download = .ok →
        (analyzePreview previewUrl trackId (some e) download extract).result
          = .value (some ⟨p, ANALYZER_VERSION, trackId, previewUrl⟩)
        ∧ (analyzePreview previewUrl trackId (some e) download
            extract).cacheEntry
          = some ⟨p, ANALYZER_VERSION, trackId, previewUrl⟩) := by
  have hrun : analyzePreview previewUrl trackId (some e) download extract
      = analyzeFresh previewUrl trackId (some e) download extract := by
    simp [analyzePreview, hurl, hver]
  rw [hrun]
  cases download with
  | failure =>
    refine ⟨?_, ?_, ?_⟩
    · simp [analyzeFresh]
    · intro h
      cases h
    · intro p hp h
      cases h
  | ok =>
    cases extract with
    | failure =>
      refine ⟨?_, ?_, ?_⟩
      · simp [analyzeFresh]
      · intro _
        simp [analyzeFresh]
      · intro p hp
        cases hp
    | ok p =>
      refine ⟨?_, ?_, ?_⟩
      · intro hcontra
        simp only [analyzeFresh, AnalyzeResult.value.injEq, Option.some.injEq]
          at hcontra
        exact hver (by rw [← hcontra])
      · intro _
        simp [analyzeFresh]
      · intro p' hp _
        injection hp with hpp
        subst hpp
        exact ⟨rfl, rfl⟩

/-- Claim C3 witness: an entry tagged "0.9.0" (current version "1.0.0")
is not reused; a successful download and analysis produce and cache a
fresh entry tagged with the current version. -/
theorem C3_stale_version_witness :
    (analyzePreview "u" "t" (some ⟨⟨0, 0, 0, 0, 0, 0⟩, "0.9.0", "t", "u"⟩)
        .ok (.ok ⟨0, 0, 0, 0, 0, 0⟩)).result
      = .value (some ⟨⟨0, 0, 0, 0, 0, 0⟩, ANALYZER_VERSION, "t", "u"⟩)
    ∧ (analyzePreview "u" "t" (some ⟨⟨0, 0, 0, 0, 0, 0⟩, "0.9.0", "t", "u"⟩)
        .ok (.ok ⟨0, 0, 0, 0, 0, 0⟩)).cacheEntry
      = some ⟨⟨0, 0, 0, 0, 0, 0⟩, ANALYZER_VERSION, "t", "u"⟩ :=
  (C3_stale_version_never_reused "u" "t"
      ⟨⟨0, 0, 0, 0, 0, 0⟩, "0.9.0", "t", "u"⟩ .ok (.ok ⟨0, 0, 0, 0, 0, 0⟩)
      (by decide) (by decide)).2.2 ⟨0, 0, 0, 0, 0, 0⟩ rfl rfl

/-- Claim C9: in the GetSongBPM mapping, a vendor value of literally 0
for tempo, danceability, or acousticness is falsy and therefore treated
as missing: the corresponding canonical field is unset rather than 0. -/
theorem C9_zero_vendor_field_is_unset (sd : SongData) (now : ℤ) :
    (sd.tempo = some 0 → (mapToAudioFeatures sd now).tempo = none)
    ∧ (sd.danceability = some 0 →
        (mapToAudioFeatures sd now).danceability = none)
    ∧ (sd.acousticness = some 0 →
        (mapToAudioFeatures sd now).acousticness = none) := by
  refine ⟨?_, ?_, ?_⟩ <;> intro h <;> simp [mapToAudioFeatures, pyTruthy, h]

/-- Claim C9 witness: a vendor object with tempo, danceability and
acousticness all literally 0 maps to a record with all three fields
unset. -/
theorem C9_zero_vendor_witness :
    (mapToAudioFeatures ⟨some 0, none, none, some 0, some 0, none⟩ 0).tempo
      = none
    ∧ (mapToAudioFeatures
        ⟨some 0, none, none, some 0, some 0, none⟩ 0).danceability = none
    ∧ (mapToAudioFeatures
        ⟨some 0, none, none, some 0, some 0, none⟩ 0).acousticness = none :=
  ⟨(C9_zero_vendor_field_is_unset ⟨some 0, none, none, some 0, some 0, none⟩
      0).1 rfl,
   (C9_zero_vendor_field_is_unset ⟨some 0, none, none, some 0, some 0, none⟩
      0).2.1 rfl,
   (C9_zero_vendor_field_is_unset ⟨some 0, none, none, some 0, some 0, none⟩
      0).2.2 rfl⟩

/-- Claim C10: the GetSongBPM mapping always sets mode, and it is major
(1) exactly when the vendor key notation does not contain the character
"m" — in particular an absent or empty key notation yields major. -/
theorem C10_mode_set_major_without_m (sd : SongData) (now : ℤ) :
    (mapToAudioFeatures sd now).mode
      = some (if (sd.key_of.getD "").data.contains 'm' then 0 else 1)
    ∧ ((mapToAudioFeatures sd now).mode = some 1 ↔
        (sd.key_of.getD "").data.contains 'm' = false)
    ∧ (sd.key_of = none ∨ sd.key_of = some "" →
        (mapToAudioFeatures sd now).mode = some 1) := by
  have h1 : (mapToAudioFeatures sd now).mode
      = some (if (sd.key_of.getD "").data.contains 'm' then 0 else 1) := rfl
  refine ⟨h1, ?_, ?_⟩
  · rw [h1]
    by_cases h : (sd.key_of.getD "").data.contains 'm'
    · simp [h]
    · simp [h]
  · rintro (h | h) <;> rw [h1, h] <;> decide

/-- Claim C10 witness: a vendor object with no key notation is reported
as major (mode 1). -/
theorem C10_mode_witness :
    (mapToAudioFeatures ⟨none, none, none, none, none, none⟩ 0).mode
      = some 1 :=
  (C10_mode_set_major_without_m ⟨none, none, none, none, none, none⟩
      0).2.2 (Or.inl rfl)
